import Mathlib

/-!
Verification of the FlowType-Rust dictation-engine core.

This file shallowly embeds the pipeline pieces of the repository that the
frozen claims talk about, and proves or refutes each claim:

* `src/src/audio/vad.rs`                — the `EnergyVad` state machine;
* `src/src-tauri/src/audio/capture.rs`  — sample-format conversion;
* `src/src-tauri/src/transcription/engine.rs` — hallucination filtering;
* `src/src-tauri/src/injector.rs`       — the Windows text injector;
* `src/src-tauri/src/lib.rs`            — the injector-thread pre-processing;
* `src/src-tauri/src/settings.rs`       — default settings and shortcut table.

Strings of the Rust source are modelled as `List Char`; `f32` quantities that
the verified code only compares or combines by exact dyadic arithmetic are
modelled as `ℚ` (every number produced on these paths is exactly representable
in `f32`, so the rational model is exact); machine integers are `ℤ`/`ℕ` (the
values in play are far from the wrap boundary).
-/

namespace FlowType

/-! ## String helpers (models of the Rust `str`/`char` operations used) -/

/-- Model of Rust `char::is_whitespace` (the Unicode `White_Space` property),
used by `str::trim`.  Listed by code point. -/
def rustIsWs (c : Char) : Bool :=
  let n := c.toNat
  (9 ≤ n && n ≤ 13) || n == 32 || n == 133 || n == 160 || n == 5760 ||
  (8192 ≤ n && n ≤ 8202) || n == 8232 || n == 8233 || n == 8239 ||
  n == 8287 || n == 12288

/-- Model of Rust `str::trim`: drop trailing, then leading, whitespace.
(The two sides are independent, so the order does not matter.) -/
def rustTrim (t : List Char) : List Char :=
  ((t.reverse.dropWhile rustIsWs).reverse).dropWhile rustIsWs

/-- Model of Rust `char::is_ascii_punctuation`:
`!..\x2f`, `:..@`, `[..\x60`, `\x7b..~` (0x21-0x2F, 0x3A-0x40, 0x5B-0x60, 0x7B-0x7E). -/
def isAsciiPunct (c : Char) : Bool :=
  let n := c.toNat
  (33 ≤ n && n ≤ 47) || (58 ≤ n && n ≤ 64) || (91 ≤ n && n ≤ 96) ||
  (123 ≤ n && n ≤ 126)

/-- Model of Rust `str::to_lowercase` restricted to its ASCII behaviour
(every string the injector compares against shortcut keys is ASCII). -/
def toLowerList (t : List Char) : List Char := t.map Char.toLower

/-- Model of Rust `str::contains(&str)`: some suffix of `h` starts with `n`. -/
def listContains (h n : List Char) : Bool :=
  n.isPrefixOf h ||
    match h with
    | [] => false
    | _ :: t => listContains t n

/-- Model of Rust `str::find(char predicate)`: index of the first character
satisfying `p` (the sought characters are ASCII, so byte and character
indices coincide on the ranges the code slices at). -/
def findFirst (p : Char → Bool) : List Char → Option Nat
  | [] => none
  | c :: t => if p c then some 0 else (findFirst p t).map (· + 1)

/-! ## VAD state machine — `src/src/audio/vad.rs` -/

/-- `VadState` from `vad.rs`. -/
inductive VadState where
  | Silence
  | Speaking
deriving DecidableEq

/-- `EnergyVad` from `vad.rs`.  RMS values and thresholds are modelled as `ℚ`:
`process` only compares them, so the model is exact for `f32`. -/
structure EnergyVad where
  start_threshold : ℚ
  stop_threshold : ℚ
  start_window_frames : ℕ
  stop_window_frames : ℕ
  current_state : VadState
  energy_history : List ℚ
deriving DecidableEq

/-- `EnergyVad::new`.  `start_frames = (start_window_ms / frame_rate_ms).max(1)`
with `u64` (integer) division, and likewise for stop.  (Rust panics when
`frame_rate_ms = 0`; theorems about `new` carry that hypothesis.) -/
def EnergyVad.new (startT stopT : ℚ) (start_window_ms stop_window_ms frame_rate_ms : ℕ) :
    EnergyVad :=
  { start_threshold := startT
    stop_threshold := stopT
    start_window_frames := max (start_window_ms / frame_rate_ms) 1
    stop_window_frames := max (stop_window_ms / frame_rate_ms) 1
    current_state := .Silence
    energy_history := [] }

/-- The history update at the top of `EnergyVad::process`: if the history has
reached `stop_window_frames.max(start_window_frames)` entries, pop the front;
then push the new RMS at the back. -/
def EnergyVad.pushHistory (v : EnergyVad) (rms : ℚ) : List ℚ :=
  (if v.energy_history.length ≥ max v.stop_window_frames v.start_window_frames
   then v.energy_history.tail
   else v.energy_history) ++ [rms]

/-- `EnergyVad::check_window`: `false` when fewer than `windowSize` values are
in the history; otherwise the last `windowSize` values must all be strictly
above (`greater = true`) or strictly below (`greater = false`) `threshold`. -/
def EnergyVad.check_window (v : EnergyVad) (threshold : ℚ) (windowSize : ℕ)
    (greater : Bool) : Bool :=
  if v.energy_history.length < windowSize then false
  else
    (v.energy_history.drop (v.energy_history.length - windowSize)).all
      (fun val => if greater then decide (threshold < val) else decide (val < threshold))

/-- `EnergyVad::process`: push the RMS into the (bounded) history, then switch
state when the relevant window check passes; returns the updated machine and
the state it reports. -/
def EnergyVad.process (v : EnergyVad) (rms : ℚ) : EnergyVad × VadState :=
  let v1 : EnergyVad := { v with energy_history := v.pushHistory rms }
  match v.current_state with
  | .Silence =>
    if v1.check_window v1.start_threshold v1.start_window_frames true then
      ({ v1 with current_state := .Speaking }, .Speaking)
    else (v1, .Silence)
  | .Speaking =>
    if v1.check_window v1.stop_threshold v1.stop_window_frames false then
      ({ v1 with current_state := .Silence }, .Silence)
    else (v1, .Speaking)

/-- Feeding a whole sequence of RMS values through `process`. -/
def EnergyVad.processSeq (v : EnergyVad) : List ℚ → EnergyVad
  | [] => v
  | r :: rs => ((v.process r).1).processSeq rs

/-- `check_window` in the "all strictly greater" direction, characterised. -/
theorem check_window_gt_iff (v : EnergyVad) (th : ℚ) (w : ℕ) :
    (v.check_window th w true = true ↔
      w ≤ v.energy_history.length ∧
        ∀ x ∈ v.energy_history.drop (v.energy_history.length - w), th < x) := by
  unfold EnergyVad.check_window
  split
  · rename_i hlen
    simp only [Bool.false_eq_true, false_iff, not_and]
    intro hw
    omega
  · rename_i hlen
    rw [List.all_eq_true]
    simp only [if_true, decide_eq_true_eq]
    exact ⟨fun h => ⟨by omega, h⟩, fun h => h.2⟩

/-- `check_window` in the "all strictly less" direction, characterised. -/
theorem check_window_lt_iff (v : EnergyVad) (th : ℚ) (w : ℕ) :
    (v.check_window th w false = true ↔
      w ≤ v.energy_history.length ∧
        ∀ x ∈ v.energy_history.drop (v.energy_history.length - w), x < th) := by
  unfold EnergyVad.check_window
  split
  · rename_i hlen
    simp only [Bool.false_eq_true, false_iff, not_and]
    intro hw
    omega
  · rename_i hlen
    rw [List.all_eq_true]
    simp only [Bool.false_eq_true, if_false, decide_eq_true_eq]
    exact ⟨fun h => ⟨by omega, h⟩, fun h => h.2⟩

/-- An element appended at the back survives dropping all but the last `w`
elements, for any window `w ≥ 1` that fits. -/
theorem mem_drop_concat {α : Type} (u : List α) (r : α) (w : ℕ) (h1 : 1 ≤ w)
    (h2 : w ≤ (u ++ [r]).length) :
    r ∈ (u ++ [r]).drop ((u ++ [r]).length - w) := by
  have hlen : (u ++ [r]).length = u.length + 1 := by simp
  have hle : (u ++ [r]).length - w ≤ u.length := by omega
  rw [List.drop_append_of_le_length hle]
  simp

/-- C6 (helper): in state `Silence`, a frame whose RMS is not above the start
threshold never triggers a transition — `process` only updates the history. -/
theorem process_silence_step (v : EnergyVad) (r : ℚ)
    (hw : 1 ≤ v.start_window_frames)
    (hst : v.current_state = .Silence)
    (hr : r < v.start_threshold) :
    (v.process r).1 = { v with energy_history := v.pushHistory r } := by
  have hcw : ¬ EnergyVad.check_window
      { v with current_state := VadState.Silence, energy_history := v.pushHistory r }
      v.start_threshold v.start_window_frames true = true := by
    intro h
    obtain ⟨hlen, hall⟩ := (check_window_gt_iff _ _ _).mp h
    have hmem : r ∈ (v.pushHistory r).drop
        ((v.pushHistory r).length - v.start_window_frames) := by
      unfold EnergyVad.pushHistory
      exact mem_drop_concat _ r _ hw (by simpa [EnergyVad.pushHistory] using hlen)
    exact absurd (hall r hmem) (not_lt.mpr (le_of_lt hr))
  simp only [EnergyVad.process, hst]
  rw [if_neg hcw]

/-- C7 (helper): by induction, a Silence-state VAD stays in Silence over any
sequence of RMS values below the start threshold. -/
theorem processSeq_silence_aux (l : List ℚ) :
    ∀ v : EnergyVad, 1 ≤ v.start_window_frames →
      v.current_state = .Silence →
      (∀ x ∈ l, x < v.start_threshold) →
      (v.processSeq l).current_state = .Silence := by
  induction l with
  | nil =>
    intro v _ hst _
    simpa [EnergyVad.processSeq] using hst
  | cons r rs ih =>
    intro v hw hst hall
    have hr : r < v.start_threshold := hall r (by simp)
    have hstep := process_silence_step v r hw hst hr
    unfold EnergyVad.processSeq
    rw [hstep]
    exact ih _ (by simpa using hw) (by simpa using hst)
      (fun x hx => by simpa using hall x (by simp [hx]))

/-- C6: `process` transitions `Silence → Speaking` exactly when the last
`start_frames` values of the (just-updated) RMS history are all strictly
greater than `start_threshold`, and `Speaking → Silence` exactly when the last
`stop_frames` values are all strictly below `stop_threshold`; with fewer
history values than the window no transition occurs (the `≤ length` conjunct);
and `new` computes `start_frames = max(1, start_window_ms / frame_ms)` by
integer division (and likewise for stop; `frame_ms > 0` since Rust `u64`
division by zero panics). -/
theorem vad_process_transitions
    (startT stopT : ℚ) (sms tms fms : ℕ) (hf : 0 < fms) (v : EnergyVad) (rms : ℚ) :
    ((EnergyVad.new startT stopT sms tms fms).start_window_frames = max 1 (sms / fms) ∧
     (EnergyVad.new startT stopT sms tms fms).stop_window_frames = max 1 (tms / fms)) ∧
    (v.current_state = .Silence →
      ((v.process rms).2 = .Speaking ↔
        v.start_window_frames ≤ (v.pushHistory rms).length ∧
          ∀ x ∈ (v.pushHistory rms).drop ((v.pushHistory rms).length - v.start_window_frames),
            v.start_threshold < x)) ∧
    (v.current_state = .Speaking →
      ((v.process rms).2 = .Silence ↔
        v.stop_window_frames ≤ (v.pushHistory rms).length ∧
          ∀ x ∈ (v.pushHistory rms).drop ((v.pushHistory rms).length - v.stop_window_frames),
            x < v.stop_threshold)) := by
  refine ⟨⟨by simp [EnergyVad.new, Nat.max_comm], by simp [EnergyVad.new, Nat.max_comm]⟩,
    ?_, ?_⟩
  · intro hst
    have hiff := check_window_gt_iff
      { v with current_state := VadState.Silence, energy_history := v.pushHistory rms }
      v.start_threshold v.start_window_frames
    simp only [EnergyVad.process, hst]
    by_cases hcw : EnergyVad.check_window
        { v with current_state := VadState.Silence, energy_history := v.pushHistory rms }
        v.start_threshold v.start_window_frames true = true
    · rw [if_pos hcw]
      exact iff_of_true rfl (hiff.mp hcw)
    · rw [if_neg hcw]
      constructor
      · intro h
        exact VadState.noConfusion h
      · intro h
        exact absurd (hiff.mpr h) hcw
  · intro hst
    have hiff := check_window_lt_iff
      { v with current_state := VadState.Speaking, energy_history := v.pushHistory rms }
      v.stop_threshold v.stop_window_frames
    simp only [EnergyVad.process, hst]
    by_cases hcw : EnergyVad.check_window
        { v with current_state := VadState.Speaking, energy_history := v.pushHistory rms }
        v.stop_threshold v.stop_window_frames false = true
    · rw [if_pos hcw]
      exact iff_of_true rfl (hiff.mp hcw)
    · rw [if_neg hcw]
      constructor
      · intro h
        exact VadState.noConfusion h
      · intro h
        exact absurd (hiff.mpr h) hcw

/-- C6 witness: the characterization applied to a concrete machine shaped
like the repo's own `test_state_transitions` test (thresholds scaled from
`new(0.5, 0.2, 30, 50, 10)` to the integer rationals 5 and 2, a 3-frame start
window, after two loud frames): the third loud frame flips it to `Speaking`. -/
theorem vad_process_transitions_witness :
    (EnergyVad.mk 5 2 3 5 VadState.Silence [6, 6]).current_state = VadState.Silence ∧
    (((EnergyVad.mk 5 2 3 5 VadState.Silence [6, 6]).process 6).2 = VadState.Speaking ↔
      (EnergyVad.mk 5 2 3 5 VadState.Silence [6, 6]).start_window_frames ≤
        ((EnergyVad.mk 5 2 3 5 VadState.Silence [6, 6]).pushHistory 6).length ∧
        ∀ x ∈ ((EnergyVad.mk 5 2 3 5 VadState.Silence [6, 6]).pushHistory 6).drop
            (((EnergyVad.mk 5 2 3 5 VadState.Silence [6, 6]).pushHistory 6).length -
              (EnergyVad.mk 5 2 3 5 VadState.Silence [6, 6]).start_window_frames),
          (EnergyVad.mk 5 2 3 5 VadState.Silence [6, 6]).start_threshold < x) :=
  ⟨by decide,
    (vad_process_transitions 5 2 30 50 10 (by decide)
      (EnergyVad.mk 5 2 3 5 VadState.Silence [6, 6]) 6).2.1 (by decide)⟩

/-- C7: a VAD in `Silence` (with the constructor-guaranteed invariant
`start_window_frames ≥ 1`) whose thresholds satisfy the hysteresis ordering
`stop_threshold < start_threshold` stays in `Silence` after every step of any
finite RMS sequence bounded strictly below `stop_threshold`. -/
theorem vad_hysteresis (v : EnergyVad) (l : List ℚ)
    (hw : 1 ≤ v.start_window_frames)
    (hts : v.stop_threshold < v.start_threshold)
    (hst : v.current_state = .Silence)
    (hl : ∀ x ∈ l, x < v.stop_threshold) :
    ∀ p, p <+: l → (v.processSeq p).current_state = .Silence := by
  intro p hp
  exact processSeq_silence_aux p v hw hst
    (fun x hx => lt_trans (hl x (hp.subset hx)) hts)

/-- C7 witness: the engine's VAD geometry (`new(start, stop, 300, 500, 30)`
from `run_engine_loop`, thresholds scaled to the integer rationals 8 and 5)
fed twelve quiet frames stays in `Silence`. -/
theorem vad_hysteresis_witness :
    (1 ≤ (EnergyVad.new 8 5 300 500 30).start_window_frames ∧
      (EnergyVad.new 8 5 300 500 30).stop_threshold <
        (EnergyVad.new 8 5 300 500 30).start_threshold ∧
      (EnergyVad.new 8 5 300 500 30).current_state = .Silence ∧
      ∀ x ∈ List.replicate 12 (1 : ℚ),
        x < (EnergyVad.new 8 5 300 500 30).stop_threshold) ∧
    ((EnergyVad.new 8 5 300 500 30).processSeq
      (List.replicate 12 (1 : ℚ))).current_state = .Silence :=
  ⟨⟨by decide, by decide, by decide, by decide⟩,
    vad_hysteresis (EnergyVad.new 8 5 300 500 30)
      (List.replicate 12 (1 : ℚ)) (by decide) (by decide) (by decide) (by decide)
      (List.replicate 12 (1 : ℚ)) (List.prefix_refl _)⟩

/-! ## Capture sample conversion — `src/src-tauri/src/audio/capture.rs`

The converted values are exact in `f32` (integers up to 2^16 scaled by the
power of two 2^-15, and averages thereof), so `ℚ` models the arithmetic
exactly. -/

/-- `frame[i] as f32 / 32768.0` for an `i16` sample. -/
def i16ToFloat (x : ℤ) : ℚ := (x : ℚ) / 32768

/-- `(frame[i] as f32 - 32768.0) / 32768.0` for a `u16` sample. -/
def u16ToFloat (x : ℕ) : ℚ := ((x : ℚ) - 32768) / 32768

/-- Model of Rust `slice::chunks(n)`: pieces of length `n`, the last possibly
shorter.  The fuel (initially the list length) only drives termination: each
step consumes at least one element whenever `n ≥ 1` (Rust panics on chunk
size 0; capture always passes a channel count ≥ 1). -/
def listChunksGo {α : Type} (n : ℕ) : ℕ → List α → List (List α)
  | _, [] => []
  | 0, _ :: _ => []
  | fuel + 1, x :: xs => ((x :: xs).take n) :: listChunksGo n fuel ((x :: xs).drop n)

/-- `slice::chunks(n)` itself. -/
def listChunks {α : Type} (n : ℕ) (l : List α) : List (List α) :=
  listChunksGo n l.length l

/-- One frame of `write_f32`: stereo is averaged, mono passed through. -/
def convFrameF32 (frame : List ℚ) (channels : ℕ) : ℚ :=
  if channels = 2 then (frame.getD 0 0 + frame.getD 1 0) / 2
  else frame.getD 0 0

/-- One frame of `write_i16`. -/
def convFrameI16 (frame : List ℤ) (channels : ℕ) : ℚ :=
  if channels = 2 then (i16ToFloat (frame.getD 0 0) + i16ToFloat (frame.getD 1 0)) / 2
  else i16ToFloat (frame.getD 0 0)

/-- One frame of `write_u16`. -/
def convFrameU16 (frame : List ℕ) (channels : ℕ) : ℚ :=
  if channels = 2 then (u16ToFloat (frame.getD 0 0) + u16ToFloat (frame.getD 1 0)) / 2
  else u16ToFloat (frame.getD 0 0)

/-- `write_f32`: the samples pushed to the ring for one callback. -/
def write_f32 (input : List ℚ) (channels : ℕ) : List ℚ :=
  (listChunks channels input).map (fun f => convFrameF32 f channels)

/-- `write_i16`: the samples pushed to the ring for one callback. -/
def write_i16 (input : List ℤ) (channels : ℕ) : List ℚ :=
  (listChunks channels input).map (fun f => convFrameI16 f channels)

/-- `write_u16`: the samples pushed to the ring for one callback. -/
def write_u16 (input : List ℕ) (channels : ℕ) : List ℚ :=
  (listChunks channels input).map (fun f => convFrameU16 f channels)

/-- C9: capture conversion maps an `i16` sample `x` to `x/32768` (hence into
`[-1, 1)`, with `0 ↦ 0` and `-32768 ↦ -1`), a `u16` sample to
`(x - 32768)/32768` (`32768 ↦ 0`, `0 ↦ -1`), and a stereo frame to the
average of the two converted channel samples. -/
theorem capture_conversion (x : ℤ) (hx1 : -32768 ≤ x) (hx2 : x < 32768)
    (a b : ℤ) (c d : ℕ) :
    (i16ToFloat x = (x : ℚ) / 32768 ∧ -1 ≤ i16ToFloat x ∧ i16ToFloat x < 1) ∧
    (i16ToFloat 0 = 0 ∧ i16ToFloat (-32768) = -1 ∧
      u16ToFloat 32768 = 0 ∧ u16ToFloat 0 = -1) ∧
    (write_i16 [x] 1 = [i16ToFloat x] ∧
      write_i16 [a, b] 2 = [(i16ToFloat a + i16ToFloat b) / 2] ∧
      write_u16 [c] 1 = [u16ToFloat c] ∧
      write_u16 [c, d] 2 = [(u16ToFloat c + u16ToFloat d) / 2]) := by
  refine ⟨⟨rfl, ?_, ?_⟩, ⟨?_, ?_, ?_, ?_⟩, ?_, ?_, ?_, ?_⟩
  · rw [i16ToFloat, le_div_iff₀ (by norm_num : (0:ℚ) < 32768)]
    calc ((-1 : ℚ) * 32768) = ((-32768 : ℤ) : ℚ) := by norm_num
    _ ≤ (x : ℚ) := by exact_mod_cast hx1
  · rw [i16ToFloat, div_lt_one (by norm_num : (0:ℚ) < 32768)]
    exact_mod_cast hx2
  · simp [i16ToFloat]
  · simp [i16ToFloat]
  · simp [u16ToFloat]
  · simp [u16ToFloat]
  · rfl
  · rfl
  · rfl
  · rfl

/-- C9 witness: the conversion facts at concrete samples
(`x = 16384`, a stereo `i16` frame `(1, 2)`, a stereo `u16` frame `(3, 4)`). -/
theorem capture_conversion_witness :
    ((-32768 ≤ (16384 : ℤ) ∧ (16384 : ℤ) < 32768)) ∧
    ((i16ToFloat 16384 = (16384 : ℚ) / 32768 ∧ -1 ≤ i16ToFloat 16384 ∧
        i16ToFloat 16384 < 1) ∧
      (i16ToFloat 0 = 0 ∧ i16ToFloat (-32768) = -1 ∧
        u16ToFloat 32768 = 0 ∧ u16ToFloat 0 = -1) ∧
      (write_i16 [(16384 : ℤ)] 1 = [i16ToFloat 16384] ∧
        write_i16 [(1 : ℤ), (2 : ℤ)] 2 = [(i16ToFloat 1 + i16ToFloat 2) / 2] ∧
        write_u16 [(3 : ℕ)] 1 = [u16ToFloat 3] ∧
        write_u16 [(3 : ℕ), (4 : ℕ)] 2 = [(u16ToFloat 3 + u16ToFloat 4) / 2])) :=
  ⟨⟨by decide, by decide⟩, capture_conversion 16384 (by decide) (by decide) 1 2 3 4⟩

/-! ## Transcription post-filtering — `src/src-tauri/src/transcription/engine.rs` -/

/-- The characters opening a bracketed span: `'['` or `'('`. -/
def isOpener (c : Char) : Bool := c == '[' || c == '('

/-- The characters closing a bracketed span: `']'` or `')'`. -/
def isCloser (c : Char) : Bool := c == ']' || c == ')'

/-- `findFirst` finds within bounds. -/
theorem findFirst_lt (p : Char → Bool) :
    ∀ (t : List Char) (i : ℕ), findFirst p t = some i → i < t.length := by
  intro t
  induction t with
  | nil =>
    intro i h
    simp [findFirst] at h
  | cons c r ih =>
    intro i h
    simp only [findFirst] at h
    split at h
    · cases h
      simp
    · cases hr : findFirst p r with
      | none =>
        rw [hr] at h
        simp at h
      | some j =>
        rw [hr] at h
        simp at h
        have := ih j hr
        simp only [List.length_cons]
        omega

/-- The bracket-stripping loop of `TranscriptionEngine::run`: find the first
`'['` or `'('`; find the first `']'` or `')'` from there on; remove the closed
span (closer included) and repeat; stop when no opener or no closer exists. -/
def stripBrackets (t : List Char) : List Char :=
  match hs : findFirst isOpener t with
  | none => t
  | some s =>
    match he : findFirst isCloser (t.drop s) with
    | none => t
    | some e => stripBrackets (t.take s ++ t.drop (s + e + 1))
termination_by t.length
decreasing_by
  have h1 : s < t.length := findFirst_lt _ _ _ hs
  have h2 : e < (t.drop s).length := findFirst_lt _ _ _ he
  simp only [List.length_append, List.length_take, List.length_drop] at *
  omega

/-- The per-segment filter of `TranscriptionEngine::run`: trim, strip
bracketed spans, trim again; emit (`some`) unless the result is empty,
`"..."`, or starts with `"[_"` (then drop, `none`). -/
def filterTranscription (full_text : List Char) : Option (List Char) :=
  let text := rustTrim (stripBrackets (rustTrim full_text))
  if text ≠ [] ∧ text ≠ "...".toList ∧ ¬ ("[_".toList <+: text) then some text
  else none

/-- `findFirst` agrees with the library's `List.findIdx?`. -/
theorem findFirst_eq_findIdx? (p : Char → Bool) :
    ∀ t : List Char, findFirst p t = t.findIdx? p := by
  intro t
  induction t with
  | nil => rfl
  | cons c r ih =>
    simp only [findFirst, List.findIdx?_cons, Nat.zero_add, List.findIdx?_succ, ih]

/-- Structural (fuel-driven) evaluator for `stripBrackets`, used to compute it
on closed inputs (one unit of fuel per removed span suffices). -/
def stripGo (fuel : ℕ) (t : List Char) : List Char :=
  match fuel with
  | 0 => t
  | fuel + 1 =>
    match findFirst isOpener t with
    | none => t
    | some s =>
      match findFirst isCloser (t.drop s) with
      | none => t
      | some e => stripGo fuel (t.take s ++ t.drop (s + e + 1))

/-- With enough fuel, `stripGo` computes `stripBrackets`. -/
theorem stripBrackets_eq_fuel :
    ∀ (fuel : ℕ) (t : List Char), t.length ≤ fuel → stripBrackets t = stripGo fuel t := by
  intro fuel
  induction fuel with
  | zero =>
    intro t ht
    have : t = [] := List.length_eq_zero.mp (Nat.le_zero.mp ht)
    subst this
    rw [stripBrackets]
    rfl
  | succ f ih =>
    intro t ht
    rw [stripBrackets]
    unfold stripGo
    split
    · rename_i hs
      rw [hs]
    · rename_i s hs
      split
      · rename_i he
        simp only [hs, he]
      · rename_i e he
        simp only [hs, he]
        have h1 : s < t.length := findFirst_lt _ _ _ hs
        have h2 : e < (t.drop s).length := findFirst_lt _ _ _ he
        apply ih
        simp only [List.length_append, List.length_take, List.length_drop] at *
        omega

/-- C8: after inference the transcriber trims the concatenated text, then
repeatedly (left to right) removes the substring from the first `'['` or `'('`
through the first following `']'` or `')'` of either kind, stopping when no
closer exists; it trims again and forwards the result to the text channel iff
it is non-empty, not `"..."`, and does not begin with `"[_"` — otherwise the
segment is dropped.  The stripping step is characterised through the library's
`List.findIdx?`, the gate as an explicit conditional, and concrete behaviours
(a bracketed hallucination, `"..."`, an unterminated `"[_"` marker, a sentence
with an inner annotation) are conjoined. -/
theorem transcription_filter (ft t : List Char) (s e : ℕ) :
    (t.findIdx? isOpener = none → stripBrackets t = t) ∧
    (t.findIdx? isOpener = some s → (t.drop s).findIdx? isCloser = none →
      stripBrackets t = t) ∧
    (t.findIdx? isOpener = some s → (t.drop s).findIdx? isCloser = some e →
      stripBrackets t = stripBrackets (t.take s ++ t.drop (s + e + 1))) ∧
    (filterTranscription ft =
      if rustTrim (stripBrackets (rustTrim ft)) ≠ [] ∧
          rustTrim (stripBrackets (rustTrim ft)) ≠ "...".toList ∧
          ¬ ("[_".toList <+: rustTrim (stripBrackets (rustTrim ft))) then
        some (rustTrim (stripBrackets (rustTrim ft)))
      else none) ∧
    filterTranscription " [BLANK_AUDIO] ".toList = none ∧
    filterTranscription "...".toList = none ∧
    filterTranscription "[_TT".toList = none ∧
    filterTranscription " Hello (upbeat music) world. ".toList =
      some "Hello  world.".toList := by
  refine ⟨?_, ?_, ?_, rfl, ?_, ?_, ?_, ?_⟩
  · intro h
    rw [stripBrackets]
    split
    · rfl
    · rename_i s' hs
      rw [findFirst_eq_findIdx?, h] at hs
      cases hs
  · intro h1 h2
    rw [stripBrackets]
    split
    · rfl
    · rename_i s' hs
      rw [findFirst_eq_findIdx?, h1] at hs
      cases hs
      split
      · rfl
      · rename_i e' he
        rw [findFirst_eq_findIdx?, h2] at he
        cases he
  · intro h1 h2
    rw [stripBrackets]
    split
    · rename_i hs
      rw [findFirst_eq_findIdx?, h1] at hs
      cases hs
    · rename_i s' hs
      rw [findFirst_eq_findIdx?, h1] at hs
      cases hs
      split
      · rename_i he
        rw [findFirst_eq_findIdx?, h2] at he
        cases he
      · rename_i e' he
        rw [findFirst_eq_findIdx?, h2] at he
        cases he
        rfl
  · simp only [filterTranscription]
    rw [stripBrackets_eq_fuel 64 _ (by decide)]
    decide
  · simp only [filterTranscription]
    rw [stripBrackets_eq_fuel 64 _ (by decide)]
    decide
  · simp only [filterTranscription]
    rw [stripBrackets_eq_fuel 64 _ (by decide)]
    decide
  · simp only [filterTranscription]
    rw [stripBrackets_eq_fuel 64 _ (by decide)]
    decide

/-- C8 witness: the removal step applied at `"a(b)c"` — the opener is at
index 1 and the first closer 2 places further, so the span `(b)` is removed
before the loop continues. -/
theorem transcription_filter_witness :
    (("a(b)c".toList.findIdx? isOpener = some 1) ∧
      (("a(b)c".toList.drop 1).findIdx? isCloser = some 2)) ∧
    stripBrackets "a(b)c".toList =
      stripBrackets ("a(b)c".toList.take 1 ++ "a(b)c".toList.drop 4) :=
  ⟨⟨by decide, by decide⟩,
    (transcription_filter [] "a(b)c".toList 1 2).2.2.1 (by decide) (by decide)⟩

/-! ## Windows text injector — `src/src-tauri/src/injector.rs` (windows module)

`PlatformInjector::new` always stores `Some(automation)` on success, so the
`automation` option is elided. `CurrentAutomationId` is only logged and is
likewise elided. -/

/-- The OS-visible effects of one `inject` call: `SendInput` key events
(virtual-key or unicode-scancode down/up pairs), a clipboard write, or a UI
Automation `SetValue` on the focused element. -/
inductive OsEvent where
  | keyDown (vk : ℕ)
  | keyUp (vk : ℕ)
  | unicodeDown (scan : ℕ)
  | unicodeUp (scan : ℕ)
  | clipboardSet (text : List Char)
  | setValue (value : List Char)
deriving DecidableEq

/-- Events submitted through `SendInput` — key synthesis and the paste chord.
Clipboard writes and accessibility `SetValue` calls are not input events. -/
def OsEvent.isInputEvent : OsEvent → Bool
  | .keyDown _ => true
  | .keyUp _ => true
  | .unicodeDown _ => true
  | .unicodeUp _ => true
  | .clipboardSet _ => false
  | .setValue _ => false

/-- Clipboard-write events. -/
def OsEvent.isClipboardSet : OsEvent → Bool
  | .clipboardSet _ => true
  | _ => false

/-- Accessibility value-set events. -/
def OsEvent.isSetValue : OsEvent → Bool
  | .setValue _ => true
  | _ => false

/-- `VK_BACK`. -/
def VK_BACK : ℕ := 8
/-- `VK_RETURN`. -/
def VK_RETURN : ℕ := 13
/-- `VK_SHIFT`. -/
def VK_SHIFT : ℕ := 16
/-- `VK_CONTROL`. -/
def VK_CONTROL : ℕ := 17
/-- `VK_HOME`. -/
def VK_HOME : ℕ := 36
/-- `VK_DELETE`. -/
def VK_DELETE : ℕ := 46
/-- `VK_V`. -/
def VK_V : ℕ := 86

/-- What one `inject` call observes of the OS: the foreground window title
and the UI Automation facts about the focused element, plus whether the
fallible OS calls succeed.  Error returns that the code folds into defaults
(`unwrap_or_default`, `unwrap_or(false)`, `.ok()`) are folded here too. -/
structure UiaEnv where
  /-- `GetWindowTextW` of `GetForegroundWindow` (empty when the call fails). -/
  foregroundTitle : List Char
  /-- `GetFocusedElement()` succeeds. -/
  focusedElementOk : Bool
  /-- `CurrentName()` (empty on error). -/
  name : List Char
  /-- `CurrentControlType().ok()` — the raw control-type id. -/
  controlType : Option ℤ
  /-- `CurrentClassName()` (empty on error). -/
  className : List Char
  /-- `CurrentIsKeyboardFocusable()` (false on error). -/
  isKeyboardFocusable : Bool
  /-- `GetCurrentPatternAs::<IUIAutomationValuePattern>` succeeds. -/
  hasValuePattern : Bool
  /-- `CurrentIsReadOnly()` on the value pattern (`none` = the call failed). -/
  valueIsReadOnly : Option Bool
  /-- `GetCurrentPatternAs::<IUIAutomationTextPattern>` succeeds. -/
  hasTextPattern : Bool
  /-- `ValuePattern::CurrentValue()` succeeds. -/
  currentValueOk : Bool
  /-- The focused element's current value. -/
  currentValue : List Char
  /-- `ValuePattern::SetValue` succeeds. -/
  setValueOk : Bool
  /-- `arboard::Clipboard::new()` succeeds. -/
  clipboardInitOk : Bool
  /-- `Clipboard::set_text` succeeds. -/
  clipboardSetOk : Bool
deriving DecidableEq

/-- `is_vscode_focused`: a non-empty foreground title containing
`"Visual Studio Code"` or `"Antigravity"`. -/
def is_vscode_focused (env : UiaEnv) : Bool :=
  if env.foregroundTitle.length > 0 then
    listContains env.foregroundTitle "Visual Studio Code".toList ||
      listContains env.foregroundTitle "Antigravity".toList
  else false

/-- The `browser_non_edit_classes` array of `is_editable_element`. -/
def browser_non_edit_classes : List (List Char) :=
  ["Chrome_RenderWidgetHostHWND".toList, "MozillaWindowClass".toList,
   "Internet Explorer_Server".toList, "CefBrowserWindow".toList]

/-- Steps 3–5 of `is_editable_element`, reached when the control type is
neither `Edit`, `Document`, `Pane` nor `Group`: a writable `ValuePattern`
is accepted; a `TextPattern` is accepted only with edit-like name or class
evidence (otherwise rejected); finally rich-editor name heuristics. -/
def editableFallthrough (env : UiaEnv) (name_lower : List Char) : Bool :=
  if env.hasValuePattern then
    match env.valueIsReadOnly with
    | some true => false
    | _ => true
  else if env.hasTextPattern then
    if listContains name_lower "edit".toList ||
        listContains name_lower "input".toList ||
        listContains name_lower "text box".toList ||
        listContains name_lower "textarea".toList ||
        listContains (toLowerList env.className) "edit".toList then true
    else false
  else if listContains name_lower "rich text".toList ||
      listContains name_lower "compose".toList ||
      listContains name_lower "message body".toList then true
  else false

/-- `is_editable_element`: the editability gate, traced branch by branch —
Google-Docs special case, keyboard-focusability rejection, browser-viewport
class rejection, control-type whitelist (`50004` Edit, `50025` Document,
`50020` Pane, `50033` Group), then the pattern/name fallthrough. -/
def is_editable_element (env : UiaEnv) : Bool :=
  if !env.focusedElementOk then false
  else
    let name_lower := toLowerList env.name
    if listContains name_lower "document content".toList ||
        listContains name_lower "google docs".toList then true
    else if !env.isKeyboardFocusable then false
    else if browser_non_edit_classes.any (fun bc =>
        listContains env.className bc &&
          (match env.controlType with
           | some ct => decide (ct ≠ 50004) && decide (ct ≠ 50025)
           | none => true)) then false
    else
      match env.controlType with
      | some ct =>
        if ct = 50004 then true
        else if ct = 50025 then
          if env.hasValuePattern then true
          else if listContains name_lower "editor".toList ||
              listContains name_lower "compose".toList ||
              listContains name_lower "message body".toList then true
          else false
        else if ct = 50020 then
          if listContains name_lower "editor".toList ||
              listContains name_lower "input".toList then true
          else false
        else if ct = 50033 then false
        else editableFallthrough env name_lower
      | none => editableFallthrough env name_lower

/-- UTF-16 code units of one character (`char::encode_utf16`). -/
def charUtf16 (c : Char) : List ℕ :=
  if c.toNat < 65536 then [c.toNat]
  else [55296 + (c.toNat - 65536) / 1024, 56320 + (c.toNat - 65536) % 1024]

/-- UTF-16 code units of a string (`str::encode_utf16`). -/
def utf16Units (t : List Char) : List ℕ := (t.map charUtf16).flatten

/-- The `SendInput` batch of `inject_keyboard_unicode`: per code unit, one
`KEYEVENTF_UNICODE` key-down and one key-up carrying the unit as scancode. -/
def unicodeKeyEvents (t : List Char) : List OsEvent :=
  ((utf16Units t).map (fun u => [OsEvent.unicodeDown u, OsEvent.unicodeUp u])).flatten

/-- `inject_keyboard_unicode`: submits the batch and returns `Ok` (the
`SendInput` return value is ignored by the code). -/
def inject_keyboard_unicode (t : List Char) : Except Unit Unit × List OsEvent :=
  (.ok (), unicodeKeyEvents t)

/-- `inject_uia_text`: gets the focused element and its `TextPattern`, then
always returns `Err("UIA Text write not fully impl (safe fallback)")` with no
observable effect — the strategy never succeeds. -/
def inject_uia_text (_env : UiaEnv) (_t : List Char) : Except Unit Unit × List OsEvent :=
  (.error (), [])

/-- `inject_uia_value`: focused element → `ValuePattern` → `CurrentValue` →
`SetValue(current ++ text)`; any failing step returns `Err` with no effect. -/
def inject_uia_value (env : UiaEnv) (t : List Char) : Except Unit Unit × List OsEvent :=
  if env.focusedElementOk then
    if env.hasValuePattern then
      if env.currentValueOk then
        if env.setValueOk then (.ok (), [.setValue (env.currentValue ++ t)])
        else (.error (), [])
      else (.error (), [])
    else (.error (), [])
  else (.error (), [])

/-- `inject_clipboard`: put the text on the clipboard, then send the
Ctrl-down, V-down, V-up, Ctrl-up paste chord; clipboard failures return `Err`
before any effect. -/
def inject_clipboard (env : UiaEnv) (t : List Char) : Except Unit Unit × List OsEvent :=
  if !env.clipboardInitOk then (.error (), [])
  else if !env.clipboardSetOk then (.error (), [])
  else (.ok (), [.clipboardSet t, .keyDown VK_CONTROL, .keyDown VK_V,
    .keyUp VK_V, .keyUp VK_CONTROL])

/-- `send_key`: one virtual-key down/up pair. -/
def send_key (vk : ℕ) : Except Unit Unit × List OsEvent :=
  (.ok (), [.keyDown vk, .keyUp vk])

/-- `delete_line`: Shift+Home selects to line start, then Backspace. -/
def delete_line : Except Unit Unit × List OsEvent :=
  (.ok (), [.keyDown VK_SHIFT, .keyDown VK_HOME, .keyUp VK_HOME, .keyUp VK_SHIFT,
    .keyDown VK_BACK, .keyUp VK_BACK])

/-- Step 1 of `inject`: when `disable_punctuation`, drop every ASCII
punctuation character (`chars().filter(!is_ascii_punctuation)`). -/
def preprocessPunct (dp : Bool) (text : List Char) : List Char :=
  if dp then text.filter (fun c => !(isAsciiPunct c)) else text

/-- Step 2 of `inject`: when `allow_commands`, look the trimmed, lowercased
text up in the shortcut table. -/
def commandOf (ac : Bool) (shortcuts : List (List Char × List Char))
    (t : List Char) : Option (List Char) :=
  if ac then List.lookup (toLowerList (rustTrim t)) shortcuts else none

/-- The strategy cascade at the tail of `inject` (after command handling):
skip the two UIA strategies in the VS-Code/Antigravity case; a strategy's
`Err` falls through to the next and the first `Ok` returns; keyboard-unicode
and clipboard only run when the target is the editor or the editability gate
passes, otherwise the call silently succeeds with no effect. -/
def injectText (env : UiaEnv) (t : List Char) : Except Unit Unit × List OsEvent :=
  if t = [] then (.ok (), [])
  else
    let vs := is_vscode_focused env
    let uiaResult : Option (Except Unit Unit × List OsEvent) :=
      if vs then none
      else
        match inject_uia_text env t with
        | (.ok _, evs) => some (.ok (), evs)
        | (.error _, evsT) =>
          match inject_uia_value env t with
          | (.ok _, evs) => some (.ok (), evsT ++ evs)
          | (.error _, _) => none
    match uiaResult with
    | some r => r
    | none =>
      if vs || is_editable_element env then
        match inject_keyboard_unicode t with
        | (.ok _, evs) => (.ok (), evs)
        | (.error _, evs) =>
          let r := inject_clipboard env t
          (r.1, evs ++ r.2)
      else (.ok (), [])

/-- `PlatformInjector::inject` (Windows): empty-text early return, punctuation
filtering, shortcut dispatch (`[BACKSPACE]`/`[DELETE]`/`[ENTER]`/
`[DELETE_LINE]` or a literal replacement), then the strategy cascade.  Returns
the `Result` and the ordered OS effects. -/
def inject (env : UiaEnv) (text : List Char) (allow_commands : Bool)
    (shortcuts : List (List Char × List Char)) (disable_punctuation : Bool) :
    Except Unit Unit × List OsEvent :=
  if text = [] then (.ok (), [])
  else
    let tti := preprocessPunct disable_punctuation text
    match commandOf allow_commands shortcuts tti with
    | some r =>
      if r = "[BACKSPACE]".toList then send_key VK_BACK
      else if r = "[DELETE]".toList then send_key VK_DELETE
      else if r = "[ENTER]".toList then send_key VK_RETURN
      else if r = "[DELETE_LINE]".toList then delete_line
      else injectText env r
    | none => injectText env tti

/-- The default shortcut table of `AppSettings::default` (`settings.rs`).
The Rust `HashMap` lookup is keyed on exact string equality with distinct
keys, so an association list models it. -/
def defaultShortcuts : List (List Char × List Char) :=
  [("delete".toList, "[BACKSPACE]".toList),
   ("backspace".toList, "[BACKSPACE]".toList),
   ("delete that".toList, "[DELETE_LINE]".toList),
   ("new line".toList, "[ENTER]".toList),
   ("enter".toList, "[ENTER]".toList),
   ("space".toList, " ".toList)]

/-- Whether the accessibility value-set strategy succeeds in `env`: all four
of its fallible steps go through. -/
def uiaValueSucceeds (env : UiaEnv) : Bool :=
  env.focusedElementOk && env.hasValuePattern && env.currentValueOk && env.setValueOk

/-- `inject_uia_value`, characterised by `uiaValueSucceeds`. -/
theorem inject_uia_value_eq (env : UiaEnv) (t : List Char) :
    inject_uia_value env t =
      if uiaValueSucceeds env then
        (Except.ok (), [OsEvent.setValue (env.currentValue ++ t)])
      else (Except.error (), []) := by
  cases hf : env.focusedElementOk <;> cases hv : env.hasValuePattern <;>
    cases hc : env.currentValueOk <;> cases hs : env.setValueOk <;>
    simp [inject_uia_value, uiaValueSucceeds, hf, hv, hc, hs]

/-- A string containing a non-empty needle is non-empty. -/
theorem listContains_ne_nil {h n : List Char} (hc : listContains h n = true)
    (hn : n ≠ []) : h ≠ [] := by
  intro he
  subst he
  cases n with
  | nil => exact hn rfl
  | cons c t =>
    rw [listContains] at hc
    simp [List.isPrefixOf] at hc

/-- The strategy cascade in a non-Editor context on non-empty text: the UIA
text write always fails, so the outcome is decided by the value-set, then the
gate, then unicode keystrokes (clipboard is unreachable because
`inject_keyboard_unicode` always reports success). -/
theorem injectText_noneditor (env : UiaEnv) (t : List Char)
    (hvs : is_vscode_focused env = false) (ht : t ≠ []) :
    injectText env t =
      if uiaValueSucceeds env then
        (Except.ok (), [OsEvent.setValue (env.currentValue ++ t)])
      else if is_editable_element env then (Except.ok (), unicodeKeyEvents t)
      else (Except.ok (), []) := by
  unfold injectText
  rw [if_neg ht]
  simp only [hvs, Bool.false_eq_true, if_false, inject_uia_text, Bool.false_or]
  rw [inject_uia_value_eq]
  by_cases hu : uiaValueSucceeds env = true
  · simp only [hu, if_true]
    rfl
  · simp only [Bool.not_eq_true] at hu
    simp only [hu, Bool.false_eq_true, if_false]
    by_cases he : is_editable_element env = true
    · simp only [he, if_true]
      rfl
    · simp only [Bool.not_eq_true] at he
      simp only [he, Bool.false_eq_true, if_false]

/-- With the gate closed and no editor in front, the cascade performs no
`SendInput` event and reports success (the value-set may still have run). -/
theorem injectText_gate_closed (env : UiaEnv) (t : List Char)
    (hvs : is_vscode_focused env = false)
    (hed : is_editable_element env = false) :
    (injectText env t).1 = .ok () ∧
    (injectText env t).2.filter OsEvent.isInputEvent = [] := by
  by_cases ht : t = []
  · subst ht
    exact ⟨rfl, rfl⟩
  · rw [injectText_noneditor env t hvs ht]
    by_cases hu : uiaValueSucceeds env = true
    · simp [hu, OsEvent.isInputEvent]
    · simp only [Bool.not_eq_true] at hu
      simp [hu, hed]

/-- C1 (amended): on Windows, whenever the foreground window is not an Editor
context and the editability gate reports the focused element non-editable,
and the command path does not dispatch a control-token shortcut (commands
off, key absent, or a literal replacement), `inject` submits zero OS input
events — no key synthesis and no paste chord — and returns `Ok`.  (The
amendment carves out the shortcut path, which fires its key before the gate
is ever consulted; see the counterexample.) -/
theorem safety_gate (env : UiaEnv) (text : List Char) (ac dp : Bool)
    (shortcuts : List (List Char × List Char))
    (hvs : is_vscode_focused env = false)
    (hed : is_editable_element env = false)
    (hcmd : ∀ r, commandOf ac shortcuts (preprocessPunct dp text) = some r →
      r ≠ "[BACKSPACE]".toList ∧ r ≠ "[DELETE]".toList ∧
        r ≠ "[ENTER]".toList ∧ r ≠ "[DELETE_LINE]".toList) :
    (inject env text ac shortcuts dp).1 = .ok () ∧
    (inject env text ac shortcuts dp).2.filter OsEvent.isInputEvent = [] := by
  unfold inject
  by_cases htext : text = []
  · rw [if_pos htext]
    exact ⟨rfl, rfl⟩
  · rw [if_neg htext]
    cases hcmdv : commandOf ac shortcuts (preprocessPunct dp text) with
    | none =>
      simp only [hcmdv]
      exact injectText_gate_closed env _ hvs hed
    | some r =>
      obtain ⟨h1, h2, h3, h4⟩ := hcmd r hcmdv
      simp only [hcmdv]
      rw [if_neg h1, if_neg h2, if_neg h3, if_neg h4]
      exact injectText_gate_closed env r hvs hed

/-- A NativeApp-style environment: a file-manager foreground window and a
focused element that is not keyboard-focusable and exposes no pattern —
`is_editable_element` rejects it. -/
def envNonEditable : UiaEnv :=
  { foregroundTitle := "Documents - File Explorer".toList
    focusedElementOk := true
    name := "Items View".toList
    controlType := some 50007
    className := "DirectUIHWND".toList
    isKeyboardFocusable := false
    hasValuePattern := false
    valueIsReadOnly := none
    hasTextPattern := false
    currentValueOk := false
    currentValue := []
    setValueOk := false
    clipboardInitOk := true
    clipboardSetOk := true }

/-- C1 witness: plain text in the non-editable NativeApp environment — the
gate closes the cascade, no input event, `Ok`. -/
theorem safety_gate_witness :
    (is_vscode_focused envNonEditable = false ∧
      is_editable_element envNonEditable = false) ∧
    ((inject envNonEditable "hello world".toList true defaultShortcuts false).1 =
        .ok () ∧
      (inject envNonEditable "hello world".toList true defaultShortcuts
        false).2.filter OsEvent.isInputEvent = []) :=
  ⟨⟨by decide, by decide⟩,
    safety_gate envNonEditable "hello world".toList true false defaultShortcuts
      (by decide) (by decide) (fun _ h => nomatch h)⟩

/-- C1 counterexample: the claim as stated is false — with commands enabled
and the default table, `inject("delete")` in the very same non-Editor,
non-editable environment synthesizes a backspace key-down/key-up pair (two OS
input events, not zero) because the shortcut path runs before the gate. -/
theorem safety_gate_counterexample :
    is_vscode_focused envNonEditable = false ∧
    is_editable_element envNonEditable = false ∧
    (inject envNonEditable "delete".toList true defaultShortcuts false).1 = .ok () ∧
    (inject envNonEditable "delete".toList true defaultShortcuts false).2.filter
      OsEvent.isInputEvent = [.keyDown VK_BACK, .keyUp VK_BACK] :=
  ⟨by decide, by decide, rfl, by decide⟩

/-- An Editor-context environment: VS Code in the foreground (the element
facts are those of VS Code's unexposed editor surface and are never consulted
on this path). -/
def envVscode : UiaEnv :=
  { foregroundTitle := "main.rs - Visual Studio Code".toList
    focusedElementOk := false
    name := []
    controlType := none
    className := []
    isKeyboardFocusable := false
    hasValuePattern := false
    valueIsReadOnly := none
    hasTextPattern := false
    currentValueOk := false
    currentValue := []
    setValueOk := false
    clipboardInitOk := true
    clipboardSetOk := true }

/-- C2 counterexample: with `disable_punctuation = false` the lookup key is
only trimmed and lowercased, so `inject("delete.")` misses the `"delete"`
entry and types the text `"delete."` via unicode keystrokes, while
`inject("delete")` sends the single backspace — the two calls are not
equivalent. -/
theorem command_normalization_counterexample :
    (inject envVscode "delete.".toList true defaultShortcuts false).2 ≠
      (inject envVscode "delete".toList true defaultShortcuts false).2 ∧
    inject envVscode "delete".toList true defaultShortcuts false =
      (.ok (), [.keyDown VK_BACK, .keyUp VK_BACK]) ∧
    inject envVscode "delete.".toList true defaultShortcuts false =
      (.ok (), unicodeKeyEvents "delete.".toList) :=
  ⟨by decide, rfl, rfl⟩

/-- C2 (amended): the punctuation stripping that makes `"delete."` hit the
`"delete"` entry happens only when `disable_punctuation = true`; then, in
every environment, `inject("delete.")` and `inject("delete")` are the same
call — a single backspace pair, no characters typed. -/
theorem command_normalization_amended (env : UiaEnv) :
    inject env "delete.".toList true defaultShortcuts true =
      inject env "delete".toList true defaultShortcuts true ∧
    inject env "delete.".toList true defaultShortcuts true =
      (.ok (), [.keyDown VK_BACK, .keyUp VK_BACK]) :=
  ⟨rfl, rfl⟩

/-- A Browser-context environment per the spec's classification (title ends
in `"- Google Chrome"`): focused element is a keyboard-focusable Edit control
inside the Chrome render widget, with a writable value pattern — the gate
passes and every fallible OS call succeeds. -/
def envBrowser : UiaEnv :=
  { foregroundTitle := "Inbox - Google Chrome".toList
    focusedElementOk := true
    name := "Search".toList
    controlType := some 50004
    className := "Chrome_RenderWidgetHostHWND".toList
    isKeyboardFocusable := true
    hasValuePattern := true
    valueIsReadOnly := some false
    hasTextPattern := true
    currentValueOk := true
    currentValue := []
    setValueOk := true
    clipboardInitOk := true
    clipboardSetOk := true }

/-- C3 counterexample: in a Browser context with the gate passed, injection
is NOT clipboard paste alone — the accessibility value-set strategy is
attempted first and succeeds here, so the call's only effect is a `SetValue`
and no clipboard write or paste chord happens at all. -/
theorem browser_strategy_counterexample :
    listContains (toLowerList envBrowser.foregroundTitle)
      "- google chrome".toList = true ∧
    is_editable_element envBrowser = true ∧
    (inject envBrowser "hi".toList false defaultShortcuts false).2 =
      [.setValue "hi".toList] ∧
    (inject envBrowser "hi".toList false defaultShortcuts false).2.filter
      OsEvent.isClipboardSet = [] ∧
    (inject envBrowser "hi".toList false defaultShortcuts false).2.filter
      OsEvent.isInputEvent = [] :=
  ⟨by decide, by decide, rfl, by decide, by decide⟩

/-- C3 (amended): the Windows injector never special-cases browsers: in every
non-Editor context (browser titles included), after command handling the
cascade is UIA text write (which always fails and falls through), then UIA
value-set, then — only past the editability gate — unicode keystrokes; each
`Err` falls through to the next strategy and the first `Ok` returns, and
since unicode synthesis always reports `Ok`, clipboard paste is unreachable
dead code on this path. -/
theorem noneditor_strategy_order (env : UiaEnv) (text : List Char) (ac dp : Bool)
    (shortcuts : List (List Char × List Char))
    (hvs : is_vscode_focused env = false)
    (hcmd : commandOf ac shortcuts (preprocessPunct dp text) = none)
    (hne : preprocessPunct dp text ≠ []) :
    inject_uia_text env (preprocessPunct dp text) = (.error (), []) ∧
    inject env text ac shortcuts dp =
      (if uiaValueSucceeds env then
        (.ok (), [.setValue (env.currentValue ++ preprocessPunct dp text)])
      else if is_editable_element env then
        (.ok (), unicodeKeyEvents (preprocessPunct dp text))
      else (.ok (), [])) := by
  have htext : text ≠ [] := by
    intro h
    apply hne
    rw [h]
    cases dp <;> rfl
  refine ⟨rfl, ?_⟩
  unfold inject
  rw [if_neg htext]
  simp only [hcmd]
  exact injectText_noneditor env _ hvs hne

/-- C3 witness: the cascade characterisation applied in the browser
environment (value-set succeeds there, so the call resolves to `SetValue`). -/
theorem noneditor_strategy_order_witness :
    (is_vscode_focused envBrowser = false ∧
      commandOf false defaultShortcuts (preprocessPunct false "hi".toList) = none ∧
      preprocessPunct false "hi".toList ≠ []) ∧
    (inject_uia_text envBrowser (preprocessPunct false "hi".toList) =
        (.error (), []) ∧
      inject envBrowser "hi".toList false defaultShortcuts false =
        (if uiaValueSucceeds envBrowser then
          (.ok (), [.setValue (envBrowser.currentValue ++
            preprocessPunct false "hi".toList)])
        else if is_editable_element envBrowser then
          (.ok (), unicodeKeyEvents (preprocessPunct false "hi".toList))
        else (.ok (), []))) :=
  ⟨⟨by decide, by decide, by decide⟩,
    noneditor_strategy_order envBrowser "hi".toList false false defaultShortcuts
      (by decide) (by decide) (by decide)⟩

/-- Two events per code unit after pairing and flattening. -/
theorem unicode_pair_length (us : List ℕ) :
    ((us.map (fun u => [OsEvent.unicodeDown u, OsEvent.unicodeUp u])).flatten).length =
      2 * us.length := by
  induction us with
  | nil => rfl
  | cons u rest ih =>
    simp only [List.map_cons, List.flatten_cons, List.length_append,
      List.length_cons, List.length_nil, List.length_map, ih]
    omega

/-- C4: with VS Code or Antigravity in the foreground title, `inject`
bypasses both UIA strategies and the editability gate (the conclusion holds
for every focused-element configuration) and performs unicode keystroke
synthesis: exactly one key-down plus one key-up per UTF-16 code unit of the
text, and the emitted batch contains no clipboard write and no value-set. -/
theorem editor_unicode_path (env : UiaEnv) (text : List Char) (ac : Bool)
    (shortcuts : List (List Char × List Char))
    (hvs : listContains env.foregroundTitle "Visual Studio Code".toList = true ∨
      listContains env.foregroundTitle "Antigravity".toList = true)
    (hcmd : commandOf ac shortcuts text = none)
    (hne : text ≠ []) :
    inject env text ac shortcuts false = (.ok (), unicodeKeyEvents text) ∧
    (unicodeKeyEvents text).length = 2 * (utf16Units text).length ∧
    (∀ ev ∈ unicodeKeyEvents text,
      ev.isClipboardSet = false ∧ ev.isSetValue = false) := by
  have hvs' : is_vscode_focused env = true := by
    have hne' : env.foregroundTitle ≠ [] := by
      rcases hvs with h | h <;> exact listContains_ne_nil h (by decide)
    unfold is_vscode_focused
    rw [if_pos (List.length_pos.mpr hne')]
    rw [Bool.or_eq_true]
    exact hvs
  refine ⟨?_, ?_, ?_⟩
  · unfold inject
    rw [if_neg hne]
    have hpp : preprocessPunct false text = text := rfl
    simp only [hpp, hcmd]
    unfold injectText
    rw [if_neg hne]
    simp [hvs', inject_keyboard_unicode]
  · simpa [unicodeKeyEvents] using unicode_pair_length (utf16Units text)
  · intro ev hev
    unfold unicodeKeyEvents at hev
    rw [List.mem_flatten] at hev
    obtain ⟨s, hs, hm⟩ := hev
    rw [List.mem_map] at hs
    obtain ⟨u, _, rfl⟩ := hs
    simp only [List.mem_cons, List.not_mem_nil, or_false, List.mem_singleton] at hm
    rcases hm with rfl | rfl <;> exact ⟨rfl, rfl⟩

/-- C4 witness: the spec's own scenario — title
`"main.rs - Visual Studio Code"`, text `"fn main"` (7 UTF-16 code units):
14 key events and no clipboard write. -/
theorem editor_unicode_path_witness :
    ((listContains envVscode.foregroundTitle "Visual Studio Code".toList = true ∨
        listContains envVscode.foregroundTitle "Antigravity".toList = true) ∧
      commandOf true defaultShortcuts "fn main".toList = none ∧
      "fn main".toList ≠ []) ∧
    inject envVscode "fn main".toList true defaultShortcuts false =
      (.ok (), unicodeKeyEvents "fn main".toList) ∧
    (unicodeKeyEvents "fn main".toList).length = 14 ∧
    (inject envVscode "fn main".toList true defaultShortcuts false).2.filter
      OsEvent.isClipboardSet = [] :=
  ⟨⟨Or.inl (by decide), by decide, by decide⟩,
    (editor_unicode_path envVscode "fn main".toList true defaultShortcuts
      (Or.inl (by decide)) (by decide) (by decide)).1,
    by decide, by decide⟩

/-! ## Injector-thread pre-processing — `src/src-tauri/src/lib.rs`
(`run_engine_loop`, step 4) -/

/-- The space-collapsing pass of the injector thread: keep the first space of
each run (`last_was_space` threading), copy every other character. -/
def collapseSpacesAux (lastWasSpace : Bool) : List Char → List Char
  | [] => []
  | c :: rest =>
    if c = ' ' then
      (if lastWasSpace then collapseSpacesAux true rest
       else ' ' :: collapseSpacesAux true rest)
    else c :: collapseSpacesAux false rest

/-- The punctuation cleanup of the injector thread: replace every ASCII
punctuation character by a space (to keep word separation), collapse space
runs, then trim. -/
def cleanPunctuation (t : List Char) : List Char :=
  rustTrim (collapseSpacesAux false
    (t.map (fun c => if isAsciiPunct c then ' ' else c)))

/-- The claim's announced algorithm, following the spec's words: REMOVE all
ASCII punctuation, then collapse runs of spaces and trim.  Second definition
for comparison only — the code replaces punctuation by spaces instead. -/
def cleanPunctuationSpec (t : List Char) : List Char :=
  rustTrim (collapseSpacesAux false (t.filter (fun c => !(isAsciiPunct c))))

/-- The text a received transcription becomes before display and injection:
auto-space appends `' '` first, then (when `disable_punctuation`) the
punctuation cleanup runs. -/
def processIncoming (auto_space dp : Bool) (text : List Char) : List Char :=
  let t1 := if auto_space then text ++ [' '] else text
  if dp then cleanPunctuation t1 else t1

/-- One iteration of the injector thread for a received `text`: the first
component is the string emitted to the UI (`transcription` event), the second
the `inject` call made with that same string. -/
def injectorThreadStep (env : UiaEnv) (auto_space allow_commands dp : Bool)
    (shortcuts : List (List Char × List Char)) (text : List Char) :
    List Char × (Except Unit Unit × List OsEvent) :=
  let t := processIncoming auto_space dp text
  (t, inject env t allow_commands shortcuts dp)

/-- Membership survives `rustTrim`. -/
theorem mem_rustTrim {c : Char} {l : List Char} (h : c ∈ rustTrim l) : c ∈ l := by
  unfold rustTrim at h
  have h1 := (List.dropWhile_sublist _).subset h
  rw [List.mem_reverse] at h1
  have h2 := (List.dropWhile_sublist _).subset h1
  rwa [List.mem_reverse] at h2

/-- Characters of the collapsed string: a space, or a character of the
input. -/
theorem mem_collapseSpaces {c : Char} :
    ∀ (l : List Char) (b : Bool), c ∈ collapseSpacesAux b l → c = ' ' ∨ c ∈ l := by
  intro l
  induction l with
  | nil =>
    intro b h
    simp [collapseSpacesAux] at h
  | cons d rest ih =>
    intro b h
    rw [collapseSpacesAux] at h
    by_cases hd : d = ' '
    · rw [if_pos hd] at h
      cases b with
      | true =>
        rw [if_pos rfl] at h
        rcases ih true h with h' | h'
        · exact Or.inl h'
        · exact Or.inr (List.mem_cons_of_mem _ h')
      | false =>
        rw [if_neg (by simp)] at h
        rcases List.mem_cons.mp h with rfl | h'
        · exact Or.inl rfl
        · rcases ih true h' with h'' | h''
          · exact Or.inl h''
          · exact Or.inr (List.mem_cons_of_mem _ h'')
    · rw [if_neg hd] at h
      rcases List.mem_cons.mp h with rfl | h'
      · exact Or.inr (List.mem_cons_self _ _)
      · rcases ih false h' with h'' | h''
        · exact Or.inl h''
        · exact Or.inr (List.mem_cons_of_mem _ h'')

/-- The cleaned text contains no ASCII punctuation. -/
theorem cleanPunctuation_no_punct (t : List Char) :
    ∀ c ∈ cleanPunctuation t, isAsciiPunct c = false := by
  intro c hc
  have h1 := mem_rustTrim hc
  rcases mem_collapseSpaces _ _ h1 with rfl | h2
  · decide
  · rw [List.mem_map] at h2
    obtain ⟨d, _, rfl⟩ := h2
    by_cases hd : isAsciiPunct d = true
    · rw [if_pos hd]
      decide
    · simp only [Bool.not_eq_true] at hd
      rw [if_neg (by simp [hd])]
      exact hd

/-- C5 (amended): with `disable_punctuation`, the injector thread cleans the
text by replacing each ASCII punctuation character with a space (not by
deleting it), then collapsing space runs and trimming; `"hello, world!!"`
still cleans to `"hello world"`, the cleaned text contains no ASCII
punctuation, and both the UI display and the `inject` call use exactly that
cleaned string. -/
theorem punctuation_cleanup (env : UiaEnv) (ac : Bool)
    (shortcuts : List (List Char × List Char)) (t : List Char) (auto_space : Bool) :
    (injectorThreadStep env auto_space ac true shortcuts
      "hello, world!!".toList).1 = "hello world".toList ∧
    (∀ c ∈ cleanPunctuation t, isAsciiPunct c = false) ∧
    injectorThreadStep env false ac true shortcuts t =
      (cleanPunctuation t, inject env (cleanPunctuation t) ac shortcuts true) := by
  refine ⟨?_, cleanPunctuation_no_punct t, rfl⟩
  cases auto_space <;> rfl

/-- C5 witness: the cleanup applied at `"hello, world!!"` (with auto-space
off) and the no-punctuation fact at the cleaned result. -/
theorem punctuation_cleanup_witness :
    (injectorThreadStep envNonEditable false true true defaultShortcuts
      "hello, world!!".toList).1 = "hello world".toList ∧
    (∀ c ∈ cleanPunctuation "hello, world!!".toList, isAsciiPunct c = false) :=
  ⟨(punctuation_cleanup envNonEditable true defaultShortcuts
      "hello, world!!".toList false).1,
    (punctuation_cleanup envNonEditable true defaultShortcuts
      "hello, world!!".toList false).2.1⟩

/-- C5 counterexample: the claim describes the cleanup as REMOVING
punctuation and then collapsing/trimming; on `"a,b"` that algorithm yields
`"ab"`, while the code (which replaces punctuation with spaces) yields
`"a b"` — the two differ. -/
theorem punctuation_cleanup_counterexample :
    cleanPunctuation "a,b".toList = "a b".toList ∧
    cleanPunctuationSpec "a,b".toList = "ab".toList ∧
    cleanPunctuation "a,b".toList ≠ cleanPunctuationSpec "a,b".toList :=
  ⟨rfl, rfl, by decide⟩

/-- Appending a space either disappears in the collapsing pass (after a
space) or survives as one trailing space. -/
theorem collapse_append_space (l : List Char) :
    ∀ b : Bool, collapseSpacesAux b (l ++ [' ']) = collapseSpacesAux b l ∨
      collapseSpacesAux b (l ++ [' ']) = collapseSpacesAux b l ++ [' '] := by
  induction l with
  | nil =>
    intro b
    cases b with
    | true => exact Or.inl rfl
    | false => exact Or.inr rfl
  | cons c rest ih =>
    intro b
    simp only [List.cons_append, collapseSpacesAux, List.append_eq]
    by_cases hc : c = ' '
    · rw [if_pos hc, if_pos hc]
      cases b with
      | true => exact ih true
      | false =>
        rw [if_neg (by simp), if_neg (by simp)]
        rcases ih true with h | h
        · exact Or.inl (by rw [h])
        · exact Or.inr (by rw [h, List.cons_append])
    · rw [if_neg hc, if_neg hc]
      rcases ih false with h | h
      · exact Or.inl (by rw [h])
      · exact Or.inr (by rw [h, List.cons_append])

/-- `trim` absorbs a trailing space. -/
theorem rustTrim_append_space (l : List Char) : rustTrim (l ++ [' ']) = rustTrim l := by
  unfold rustTrim
  rw [List.reverse_append]
  simp [List.dropWhile_cons, rustIsWs]

/-- The punctuation cleanup absorbs a trailing space. -/
theorem cleanPunctuation_append_space (t : List Char) :
    cleanPunctuation (t ++ [' ']) = cleanPunctuation t := by
  unfold cleanPunctuation
  rw [List.map_append]
  simp only [List.map_cons, List.map_nil, ite_self]
  rcases collapse_append_space
      (List.map (fun c => if isAsciiPunct c then ' ' else c) t) false with h | h
  · rw [h]
  · rw [h, rustTrim_append_space]

/-- A prefix-dropping pass keeps the last element when the result is
non-empty. -/
theorem getLast?_dropWhile (p : Char → Bool) :
    ∀ (l : List Char) (c : Char), (l.dropWhile p).getLast? = some c →
      l.getLast? = some c := by
  intro l
  induction l with
  | nil =>
    intro c h
    simp at h
  | cons a t ih =>
    intro c h
    rw [List.dropWhile_cons] at h
    split at h
    · have ht := ih c h
      have htne : t ≠ [] := by
        intro he
        rw [he] at ht
        simp at ht
      rw [List.getLast?_cons, ht]
      rfl
    · exact h

/-- The trimmed string never ends in a whitespace character. -/
theorem rustTrim_getLast (l : List Char) (c : Char)
    (h : (rustTrim l).getLast? = some c) : rustIsWs c = false := by
  unfold rustTrim at h
  have h1 := getLast?_dropWhile rustIsWs _ c h
  rw [List.getLast?_reverse] at h1
  have h2 := List.head?_dropWhile_not rustIsWs l.reverse
  rw [h1] at h2
  exact h2

/-- C10: the auto-space `' '` is appended before the punctuation cleanup and
the cleanup ends with a trim, so with both `auto_space` and
`disable_punctuation` enabled the appended space is removed again: the thread
behaves exactly as with `auto_space` off, and the text displayed to the UI
and handed to `inject` carries no trailing space — auto-space has no
observable effect while `disable_punctuation` is on. -/
theorem autospace_noop (env : UiaEnv) (ac : Bool)
    (shortcuts : List (List Char × List Char)) (t : List Char) :
    injectorThreadStep env true ac true shortcuts t =
      injectorThreadStep env false ac true shortcuts t ∧
    (injectorThreadStep env true ac true shortcuts t).1.getLast? ≠ some ' ' := by
  have hclean : processIncoming true true t = processIncoming false true t := by
    unfold processIncoming
    simp only [if_true]
    exact cleanPunctuation_append_space t
  constructor
  · unfold injectorThreadStep
    rw [hclean]
  · show (processIncoming true true t).getLast? ≠ some ' '
    rw [hclean]
    intro h
    have := rustTrim_getLast _ _ h
    simp [rustIsWs] at this

end FlowType
